import Mathlib

/-!
Verification of the retrieval substrate of the RetrievalAugmentedGeneration
repository: the windowing/chunking algorithm (src/document_processor.py), the
vector store operations (src/vector_store.py) and the adjacency-based context
expansion (src/retriever.py), shallowly embedded in Lean.

External collaborators are parameters of the embedding:
 - `md5`  : String → String        models hashlib.md5(...).hexdigest()
 - `tok`  : String → List Nat      models tiktoken cl100k_base enc.encode
 - `dec`  : List Nat → String      models tiktoken enc.decode
 - `embedApi` : String → Option (List Rat)   models the OpenAI embeddings
   call (`none` = EmbeddingServiceError raised)
 - `dist` : List Rat → List Rat → Rat        models pgvector cosine distance
   (the `<=>` operator)

Python ints that are provably non-negative (token offsets, chunk_index)
are modelled as Nat; the retriever's neighbour-index arithmetic, which can
go below zero, is modelled on Int exactly as the Python does it.
-/

/-- Metadata dictionary attached to every chunk
(document_processor.py lines 95-100). -/
structure Metadata where
  source : String
  chunk_index : Nat
  processed_date : String
  token_count : Nat
deriving DecidableEq

/-- Chunk dictionary produced by DocumentProcessor._chunk_content
(document_processor.py lines 92-101).  `chunk_tokens` is the token slice
`tokens[start:end]` of line 86, of which the stored `text` is the decode and
`metadata.token_count` the length. -/
structure Chunk where
  id : String
  text : String
  chunk_tokens : List Nat
  metadata : Metadata
deriving DecidableEq

/-- Row of the `documents` table (vector_store.py lines 24-31). -/
structure Row where
  id : String
  content : String
  metadata : Metadata
  embedding : List Rat
deriving DecidableEq

/-- The `documents` table as a list of rows. -/
abbrev Store := List Row

/-- Payload returned by VectorStore.get_chunks_by_ids (vector_store.py lines
110-116): id, content and metadata only, the embedding column is not selected. -/
structure Payload where
  id : String
  text : String
  metadata : Metadata
deriving DecidableEq

/-- Result row of VectorStore.query (vector_store.py lines 87-94):
the similarity score is attached, the embedding is not returned. -/
structure Scored where
  id : String
  text : String
  metadata : Metadata
  score : Rat
deriving DecidableEq

/-- Context attached to one primary chunk by Retriever.retrieve
(retriever.py lines 59-62). -/
structure ChunkContext where
  before : List Payload
  after : List Payload
deriving DecidableEq

/-- One element of the list returned by Retriever.retrieve
(retriever.py lines 78-81). -/
structure ResultEntry where
  primary : Scored
  context : ChunkContext
deriving DecidableEq

/-- Chunk built by one iteration of the while loop of
DocumentProcessor._chunk_content (document_processor.py lines 85-101), at
window start offset `start` with ordinal `chunk_index`:
`end = min(start + chunk_size, total_tokens)`, the token slice is
`tokens[start:end]`, the id is `md5(f"{filename}_{chunk_index}")`. -/
def chunkAt (dec : List Nat → String) (md5 : String → String) (W : Nat)
    (tokens : List Nat) (filename now : String) (start chunk_index : Nat) : Chunk :=
  { id := md5 (filename ++ "_" ++ toString chunk_index)
    text := dec ((tokens.drop start).take (min (start + W) tokens.length - start))
    chunk_tokens := (tokens.drop start).take (min (start + W) tokens.length - start)
    metadata :=
      { source := filename
        chunk_index := chunk_index
        processed_date := now
        token_count := ((tokens.drop start).take (min (start + W) tokens.length - start)).length } }

/-- Fuelled embedding of the `while start < total_tokens` loop of
DocumentProcessor._chunk_content (document_processor.py lines 84-107).
Each iteration appends one chunk, breaks when `end == total_tokens`, and
otherwise advances `start` by `chunk_size - chunk_overlap` (Nat-truncated;
for chunk_overlap >= chunk_size the Python start does not advance past its
current value either, and the loop never exits).  `none` means the fuel ran
out, i.e. the Python loop performs at least that many iterations. -/
def chunkLoop (dec : List Nat → String) (md5 : String → String) (W O : Nat)
    (tokens : List Nat) (filename now : String) :
    Nat → Nat → Nat → Option (List Chunk)
  | 0, _, _ => none
  | fuel + 1, start, chunk_index =>
    if start < tokens.length then
      if min (start + W) tokens.length = tokens.length then
        some [chunkAt dec md5 W tokens filename now start chunk_index]
      else
        match chunkLoop dec md5 W O tokens filename now fuel (start + (W - O)) (chunk_index + 1) with
        | some rest => some (chunkAt dec md5 W tokens filename now start chunk_index :: rest)
        | none => none
    else some []

/-- DocumentProcessor._chunk_content (document_processor.py lines 65-109):
encode the content, run the windowing loop from start = 0, chunk_index = 0.
Fuel `total_tokens + 1` is proved sufficient whenever chunk_overlap <
chunk_size; `none` means the Python call does not terminate. -/
def _chunk_content (dec : List Nat → String) (md5 : String → String)
    (tok : String → List Nat) (W O : Nat) (content filename now : String) :
    Option (List Chunk) :=
  chunkLoop dec md5 W O (tok content) filename now ((tok content).length + 1) 0 0

/-- Number of chunks the loop emits for a remaining token distance
`d = total_tokens - start` (0 when the loop is not entered, 1 when the first
window already reaches the end, otherwise the ceiling of (d-O)/(W-O)). -/
def cntFrom (W O d : Nat) : Nat :=
  if d = 0 then 0 else if d ≤ W then 1 else (d - O + (W - O) - 1) / (W - O)

theorem cntFrom_step {W O d : Nat} (hO : O < W) (hd : W < d) :
    cntFrom W O d = cntFrom W O (d - (W - O)) + 1 := by
  have hs : 0 < W - O := by omega
  by_cases h2 : d - (W - O) ≤ W
  · have h1 : cntFrom W O (d - (W - O)) = 1 := by
      unfold cntFrom
      rw [if_neg (by omega), if_pos h2]
    rw [h1]
    unfold cntFrom
    rw [if_neg (by omega), if_neg (by omega)]
    have : (d - O + (W - O) - 1) / (W - O) = 2 := by
      apply Nat.div_eq_of_lt_le
      · omega
      · omega
    omega
  · unfold cntFrom
    rw [if_neg (by omega), if_neg (by omega), if_neg (by omega), if_neg (by omega)]
    have ha : d - O + (W - O) - 1 = (d - (W - O) - O + (W - O) - 1) + (W - O) := by omega
    rw [ha, Nat.add_div_right _ hs]

theorem cntFrom_pos {W O d : Nat} (hO : O < W) (hd : 0 < d) :
    0 < cntFrom W O d := by
  by_cases h : W < d
  · rw [cntFrom_step hO h]; omega
  · unfold cntFrom
    rw [if_neg (by omega), if_pos (by omega)]
    omega

theorem cntFrom_last {W O : Nat} (hO : O < W) :
    ∀ d, 0 < d → d ≤ (cntFrom W O d - 1) * (W - O) + W := by
  intro d
  induction d using Nat.strong_induction_on with
  | _ d ih =>
    intro hd
    by_cases h : W < d
    · rw [cntFrom_step hO h]
      have hrec := ih (d - (W - O)) (by omega) (by omega)
      have hpos := @cntFrom_pos W O (d - (W - O)) hO (by omega)
      have : cntFrom W O (d - (W - O)) + 1 - 1 = (cntFrom W O (d - (W - O)) - 1) + 1 := by omega
      rw [this, Nat.succ_mul]
      omega
    · have : cntFrom W O d = 1 := by
        unfold cntFrom
        rw [if_neg (by omega), if_pos (by omega)]
      rw [this]
      omega

theorem cntFrom_full {W O : Nat} (hO : O < W) :
    ∀ d i, i + 1 < cntFrom W O d → i * (W - O) + W < d := by
  intro d
  induction d using Nat.strong_induction_on with
  | _ d ih =>
    intro i hi
    by_cases h : W < d
    · rcases i with _ | j
      · omega
      · rw [cntFrom_step hO h] at hi
        have hrec := ih (d - (W - O)) (by omega) j (by omega)
        have : (j + 1) * (W - O) = j * (W - O) + (W - O) := by ring
        omega
    · have : cntFrom W O d ≤ 1 := by
        unfold cntFrom
        by_cases hz : d = 0
        · rw [if_pos hz]; omega
        · rw [if_neg hz, if_pos (by omega)]
      omega

theorem chunkLoop_eq (dec : List Nat → String) (md5 : String → String) (W O : Nat)
    (tokens : List Nat) (filename now : String) (hO : O < W) :
    ∀ fuel start idx, tokens.length - start < fuel →
      chunkLoop dec md5 W O tokens filename now fuel start idx =
        some ((List.range (cntFrom W O (tokens.length - start))).map
          (fun j => chunkAt dec md5 W tokens filename now (start + j * (W - O)) (idx + j))) := by
  intro fuel
  induction fuel with
  | zero => intro start idx h; omega
  | succ fuel ih =>
    intro start idx h
    by_cases hs : start < tokens.length
    · by_cases he : min (start + W) tokens.length = tokens.length
      · have hc : cntFrom W O (tokens.length - start) = 1 := by
          unfold cntFrom
          rw [if_neg (by omega), if_pos (by omega)]
        rw [hc]
        simp only [chunkLoop, if_pos hs, if_pos he]
        have h1 : List.range 1 = [0] := rfl
        simp [h1]
      · have hd : W < tokens.length - start := by omega
        have hd2 : tokens.length - (start + (W - O)) = tokens.length - start - (W - O) := by
          omega
        have hrec := ih (start + (W - O)) (idx + 1) (by omega)
        rw [hd2] at hrec
        rw [cntFrom_step hO hd]
        simp only [chunkLoop, if_pos hs, if_neg he, hrec]
        congr 1
        rw [List.range_succ_eq_map, List.map_cons, List.map_map]
        congr 1
        · simp
        · apply List.map_congr_left
          intro j _
          have h1 : start + Nat.succ j * (W - O) = start + (W - O) + j * (W - O) := by
            rw [Nat.succ_mul]; omega
          have h2 : idx + Nat.succ j = idx + 1 + j := by omega
          simp only [Function.comp_apply, h1, h2]
    · have hc : cntFrom W O (tokens.length - start) = 0 := by
        unfold cntFrom
        rw [if_pos (by omega)]
      rw [hc]
      simp only [chunkLoop, if_neg hs, List.range_zero, List.map_nil]

/-- Closed form of _chunk_content for a valid configuration: the chunk list is
exactly one window per offset 0, (W-O), 2(W-O), ... -/
theorem _chunk_content_eq (dec : List Nat → String) (md5 : String → String)
    (tok : String → List Nat) (W O : Nat) (content filename now : String) (hO : O < W) :
    _chunk_content dec md5 tok W O content filename now =
      some ((List.range (cntFrom W O (tok content).length)).map
        (fun j => chunkAt dec md5 W (tok content) filename now (j * (W - O)) j)) := by
  unfold _chunk_content
  rw [chunkLoop_eq dec md5 W O (tok content) filename now hO _ 0 0 (by omega)]
  simp

/-- Dispatch by file extension in DocumentProcessor.process_file
(document_processor.py lines 27-36).  `content` stands for the text the
matching reader returns; an unsupported extension raises
`ValueError(f"Unsupported file type: {ext}")`. -/
def extractByExt (ext content : String) : Except String String :=
  if ext = ".pdf" then Except.ok content
  else if ext = ".docx" then Except.ok content
  else if ext = ".txt" ∨ ext = ".md" then Except.ok content
  else if ext = ".html" then Except.ok content
  else Except.error ("Unsupported file type: " ++ ext)

/-- DocumentProcessor.process_file (document_processor.py lines 15-42).
A missing file raises FileNotFoundError before the try block
(`Except.error`); inside the try block every exception, including the
unsupported-extension ValueError, is caught, printed, and an empty list is
returned.  `Except.ok none` means the chunking loop does not terminate;
`Except.ok (some l)` means the call returns `l`. -/
def process_file (dec : List Nat → String) (md5 : String → String)
    (tok : String → List Nat) (W O : Nat) (fileExists : Bool)
    (ext content filename now : String) : Except String (Option (List Chunk)) :=
  if fileExists = false then Except.error "File not found"
  else
    match extractByExt ext content with
    | Except.ok c => Except.ok (_chunk_content dec md5 tok W O c filename now)
    | Except.error _ => Except.ok (some [])

/-- Per-file ingestion loop of app.py (lines 50-86): each uploaded file is
processed on its own; the loop body for one file never inspects another
file's outcome. -/
def processBatch (dec : List Nat → String) (md5 : String → String)
    (tok : String → List Nat) (W O : Nat)
    (files : List (Bool × String × String × String)) (now : String) :
    List (Except String (Option (List Chunk))) :=
  match files with
  | [] => []
  | f :: rest =>
    process_file dec md5 tok W O f.1 f.2.1 f.2.2.1 f.2.2.2 now ::
      processBatch dec md5 tok W O rest now

/-- Newline stripping of VectorStore.get_embedding (vector_store.py line 43):
Python `text.replace("\n", " ")` for the single-character pattern replaces
each newline character by a space. -/
def replaceNewlines (s : String) : String :=
  String.mk (s.data.map fun c => if c = '\n' then ' ' else c)

/-- VectorStore.get_embedding (vector_store.py lines 41-44): strip newlines,
then call the OpenAI embeddings endpoint (`none` = the call raises). -/
def get_embedding (embedApi : String → Option (List Rat)) (text : String) :
    Option (List Rat) :=
  embedApi (replaceNewlines text)

/-- One INSERT ... ON CONFLICT (id) DO UPDATE statement
(vector_store.py lines 52-64): replace the row with the same primary key if
present, otherwise append a new row. -/
def upsertRow (st : Store) (r : Row) : Store :=
  if st.any fun x => x.id == r.id then
    st.map fun x => if x.id == r.id then r else x
  else st ++ [r]

/-- Body of the for-loop of VectorStore.add_documents (vector_store.py lines
50-64) run inside a single transaction: embed each chunk in order and execute
its upsert; `none` means some chunk's embedding call raised and the exception
escaped the `with` block. -/
def add_documents_loop (embedApi : String → Option (List Rat)) :
    Store → List Chunk → Option Store
  | st, [] => some st
  | st, c :: rest =>
    match get_embedding embedApi c.text with
    | none => none
    | some e => add_documents_loop embedApi (upsertRow st ⟨c.id, c.text, c.metadata, e⟩) rest

/-- VectorStore.add_documents (vector_store.py lines 46-65).  All chunks are
written in one psycopg2 connection context: on normal completion the
transaction commits, and an exception anywhere in the loop rolls the whole
transaction back, leaving the table as it was before the call.  The returned
store is the table state after the call. -/
def add_documents (embedApi : String → Option (List Rat)) (st : Store)
    (chunks : List Chunk) : Store :=
  match add_documents_loop embedApi st chunks with
  | some st2 => st2
  | none => st

/-- VectorStore.delete_document (vector_store.py lines 67-72):
DELETE FROM documents WHERE metadata->>'source' = filename. -/
def delete_document (filename : String) (st : Store) : Store :=
  st.filter fun r => !(r.metadata.source == filename)

/-- VectorStore.query (vector_store.py lines 74-95): embed the query text,
order the table by cosine distance to it (ascending; a stable order models
the deterministic but implementation-defined tie-breaking), keep `limit`
rows, and report each with similarity score 1 - distance.  `none` means the
embedding call raised. -/
def query (embedApi : String → Option (List Rat))
    (dist : List Rat → List Rat → Rat) (query_text : String) (limit : Nat)
    (st : Store) : Option (List Scored) :=
  (get_embedding embedApi query_text).map fun qe =>
    ((List.insertionSort (fun a b : Row => dist a.embedding qe ≤ dist b.embedding qe) st).take
        limit).map
      fun r => ⟨r.id, r.content, r.metadata, 1 - dist r.embedding qe⟩

/-- VectorStore.get_chunks_by_ids (vector_store.py lines 97-117): empty input
returns [] before any connection is opened; otherwise
SELECT id, content, metadata WHERE id = ANY(chunk_ids). -/
def get_chunks_by_ids (chunk_ids : List String) (st : Store) : List Payload :=
  if chunk_ids.isEmpty then []
  else (st.filter fun r => chunk_ids.contains r.id).map fun r => ⟨r.id, r.content, r.metadata⟩

/-- VectorStore.get_all_documents (vector_store.py lines 119-124):
SELECT DISTINCT metadata->>'source' FROM documents. -/
def get_all_documents (st : Store) : List String :=
  (st.map fun r => r.metadata.source).dedup

/-- Retriever._generate_chunk_id (retriever.py lines 9-10):
md5(f"{filename}_{index}").  The index is a Python int, so it may be
negative in the phase-4 probes; Int.toString renders it exactly as the
f-string does. -/
def _generate_chunk_id (md5 : String → String) (filename : String) (index : Int) : String :=
  md5 (filename ++ "_" ++ toString index)

/-- Candidate neighbour ids one primary chunk contributes
(retriever.py lines 23-36): for each offset 1..adjacency_window, the id at
chunk_index - offset only when that index is >= 0, and the id at
chunk_index + offset unconditionally. -/
def adjacentIdsOf (md5 : String → String) (A : Nat) (p : Scored) : List String :=
  (List.range' 1 A).flatMap fun i =>
    (if 0 ≤ (p.metadata.chunk_index : Int) - i then
       [_generate_chunk_id md5 p.metadata.source ((p.metadata.chunk_index : Int) - i)]
     else [])
    ++ [_generate_chunk_id md5 p.metadata.source ((p.metadata.chunk_index : Int) + i)]

/-- The id set handed to get_chunks_by_ids (retriever.py lines 38-40):
all candidates minus the ids already among the primaries. -/
def ids_to_fetch (md5 : String → String) (primaries : List Scored) (A : Nat) :
    List String :=
  ((primaries.flatMap (adjacentIdsOf md5 A)).dedup).filter
    fun i => !((primaries.map fun c => c.id).contains i)

/-- Lookup in the context_map dict (retriever.py lines 46, 69-72): the map is
built by inserting each fetched chunk under its id, a later insertion winning,
so lookup returns the last fetched chunk bearing the key. -/
def dictGet (ctx : List Payload) (key : String) : Option Payload :=
  ctx.reverse.find? fun c => c.id == key

/-- The Python list.sort(key=lambda x: x['metadata']['chunk_index']) of
retriever.py lines 75-76 (a stable sort by chunk_index). -/
def sortByIndex (l : List Payload) : List Payload :=
  List.insertionSort (fun a b => a.metadata.chunk_index ≤ b.metadata.chunk_index) l

/-- Context assembly for one primary chunk (retriever.py lines 59-76): probe
the context map at chunk_index +- offset for offset 1..adjacency_window
(missing keys are skipped), then sort both sides by chunk_index. -/
def buildContext (md5 : String → String) (ctx : List Payload) (s : String)
    (c : Nat) (A : Nat) : ChunkContext :=
  { before := sortByIndex ((List.range' 1 A).filterMap fun (i : Nat) =>
      dictGet ctx (_generate_chunk_id md5 s ((c : Int) - (i : Int))))
    after := sortByIndex ((List.range' 1 A).filterMap fun (i : Nat) =>
      dictGet ctx (_generate_chunk_id md5 s ((c : Int) + (i : Int)))) }

/-- Phases 2-4 of Retriever.retrieve (retriever.py lines 20-83), given the
primary chunks of phase 1. -/
def expand (md5 : String → String) (primaries : List Scored) (st : Store)
    (A : Nat) : List ResultEntry :=
  primaries.map fun p =>
    ⟨p, buildContext md5 (get_chunks_by_ids (ids_to_fetch md5 primaries A) st)
          p.metadata.source p.metadata.chunk_index A⟩

/-- Retriever.retrieve (retriever.py lines 12-83): query the store for the
primary chunks, then expand each with its recomputed-adjacency context.
`none` means the query-embedding call raised. -/
def retrieve (embedApi : String → Option (List Rat))
    (dist : List Rat → List Rat → Rat) (md5 : String → String)
    (query_text : String) (top_k A : Nat) (st : Store) :
    Option (List ResultEntry) :=
  (query embedApi dist query_text top_k st).map fun primaries =>
    expand md5 primaries st A

/-- All (source, index) pairs whose ids the retriever probes for a given
primary list: the keys of retriever.py lines 28-36 and 65-67. -/
def probePairs (primaries : List Scored) (A : Nat) : List (String × Int) :=
  primaries.flatMap fun p => (List.range' 1 A).flatMap fun i =>
    [(p.metadata.source, (p.metadata.chunk_index : Int) - i),
     (p.metadata.source, (p.metadata.chunk_index : Int) + i)]

/-- Identity invariant of the store: every row's primary key is the
deterministic hash of its (source, chunk_index) address (spec section 3). -/
def storeWF (md5 : String → String) (st : Store) : Prop :=
  ∀ row ∈ st, row.id = _generate_chunk_id md5 row.metadata.source (row.metadata.chunk_index : Int)

/-- Concrete tokenizer instance used in witnesses: one token per character. -/
def tok0 (s : String) : List Nat :=
  s.data.map Char.toNat

/-- Concrete decoder instance used in witnesses. -/
def dec0 (_l : List Nat) : String :=
  ""

/-- Concrete hash instance used in witnesses: the identity on the hashed key. -/
def md50 (s : String) : String :=
  s

/-- Bridge between the chunker's Python f-string over a non-negative int and
the retriever's over a possibly negative one: rendering a Nat through Int
gives the same digits. -/
theorem toString_natCast_int (n : Nat) : toString ((n : Nat) : Int) = toString n :=
  rfl

theorem chunkLoop_ids (dec : List Nat → String) (md5 : String → String) (W O : Nat)
    (tokens : List Nat) (filename now : String) :
    ∀ fuel start idx l,
      chunkLoop dec md5 W O tokens filename now fuel start idx = some l →
      ∀ c ∈ l, c.id = md5 (filename ++ "_" ++ toString c.metadata.chunk_index) ∧
        c.metadata.source = filename := by
  intro fuel
  induction fuel with
  | zero => intro start idx l h; cases h
  | succ fuel ih =>
    intro start idx l h
    by_cases hs : start < tokens.length
    · by_cases he : min (start + W) tokens.length = tokens.length
      · simp only [chunkLoop, if_pos hs, if_pos he, Option.some.injEq] at h
        subst h
        intro c hc
        simp only [List.mem_singleton] at hc
        subst hc
        exact ⟨rfl, rfl⟩
      · simp only [chunkLoop, if_pos hs, if_neg he] at h
        cases hre : chunkLoop dec md5 W O tokens filename now fuel (start + (W - O)) (idx + 1) with
        | none => rw [hre] at h; cases h
        | some rest =>
          rw [hre] at h
          simp only [Option.some.injEq] at h
          subst h
          intro c hc
          rcases List.mem_cons.mp hc with hc | hc
          · subst hc; exact ⟨rfl, rfl⟩
          · exact ih (start + (W - O)) (idx + 1) rest hre c hc
    · simp only [chunkLoop, if_neg hs, Option.some.injEq] at h
      subst h
      intro c hc
      cases hc

theorem mem_upsertRow (st : Store) (r x : Row) (h : x ∈ upsertRow st r) :
    x ∈ st ∨ x = r := by
  unfold upsertRow at h
  by_cases hc : st.any fun y => y.id == r.id
  · rw [if_pos hc] at h
    rcases List.mem_map.mp h with ⟨y, hy, hxy⟩
    by_cases hid : (y.id == r.id) = true
    · rw [if_pos hid] at hxy; exact Or.inr hxy.symm
    · rw [if_neg hid] at hxy; subst hxy; exact Or.inl hy
  · rw [if_neg hc] at h
    rcases List.mem_append.mp h with h | h
    · exact Or.inl h
    · right; simpa using h

theorem add_documents_loop_wf (md5 : String → String)
    (embedApi : String → Option (List Rat)) (chunks : List Chunk)
    (hc : ∀ c ∈ chunks,
      c.id = _generate_chunk_id md5 c.metadata.source (c.metadata.chunk_index : Int)) :
    ∀ st st2, storeWF md5 st → add_documents_loop embedApi st chunks = some st2 →
      storeWF md5 st2 := by
  induction chunks with
  | nil =>
    intro st st2 hst h
    simp only [add_documents_loop, Option.some.injEq] at h
    subst h
    exact hst
  | cons c rest ih =>
    intro st st2 hst h
    simp only [add_documents_loop] at h
    cases he : get_embedding embedApi c.text with
    | none => rw [he] at h; cases h
    | some e =>
      rw [he] at h
      refine ih (fun x hx => hc x (List.mem_cons_of_mem _ hx)) _ _ ?_ h
      intro row hrow
      rcases mem_upsertRow _ _ _ hrow with hrow | hrow
      · exact hst row hrow
      · subst hrow
        exact hc c (List.mem_cons_self _ _)

theorem add_documents_wf (md5 : String → String)
    (embedApi : String → Option (List Rat)) (st : Store) (chunks : List Chunk)
    (hst : storeWF md5 st)
    (hc : ∀ c ∈ chunks,
      c.id = _generate_chunk_id md5 c.metadata.source (c.metadata.chunk_index : Int)) :
    storeWF md5 (add_documents embedApi st chunks) := by
  unfold add_documents
  cases h : add_documents_loop embedApi st chunks with
  | none => exact hst
  | some st2 => exact add_documents_loop_wf md5 embedApi chunks hc st st2 hst h

/-- C10: for every tokenizer, every input and every configuration with
chunk_overlap < chunk_size, the chunking loop terminates: each iteration
either breaks when its window end reaches the token count or advances the
start offset by the positive step chunk_size - chunk_overlap, so fuel
total_tokens + 1 always completes the loop. -/
theorem C10_chunking_terminates (dec : List Nat → String) (md5 : String → String)
    (tok : String → List Nat) (W O : Nat) (content filename now : String)
    (hO : O < W) :
    ∃ l, _chunk_content dec md5 tok W O content filename now = some l :=
  ⟨_, _chunk_content_eq dec md5 tok W O content filename now hO⟩

/-- C10 witness: the configuration W = 2, O = 0 on a two-character document
terminates. -/
theorem C10_witness :
    (0 : Nat) < 2 ∧ ∃ l, _chunk_content dec0 md50 tok0 2 0 "ab" "f" "t" = some l :=
  ⟨by decide, C10_chunking_terminates dec0 md50 tok0 2 0 "ab" "f" "t" (by decide)⟩

/-- C2: the code performs no configuration validation, so for chunk_size = 1
and chunk_overlap = 1 (O = W) on the two-token document "ab" the loop body
never advances the start offset: no amount of fuel finishes the loop, i.e.
the Python call loops forever, and no InvalidConfiguration error is raised
anywhere - contradicting the claimed failure mode. -/
theorem C2_no_validation_infinite_loop :
    (∀ fuel idx, chunkLoop dec0 md50 1 1 [97, 98] "f" "t" fuel 0 idx = none)
  ∧ _chunk_content dec0 md50 tok0 1 1 "ab" "f" "t" = none := by
  have h : ∀ fuel idx, chunkLoop dec0 md50 1 1 [97, 98] "f" "t" fuel 0 idx = none := by
    intro fuel
    induction fuel with
    | zero => intro idx; rfl
    | succ fuel ih =>
      intro idx
      have hrec := ih (idx + 1)
      simp only [chunkLoop]
      norm_num
      rw [hrec]
  refine ⟨h, ?_⟩
  have h2 : _chunk_content dec0 md50 tok0 1 1 "ab" "f" "t" =
      chunkLoop dec0 md50 1 1 [97, 98] "f" "t" 3 0 0 := rfl
  rw [h2, h 3 0]

/-- C4 (amended): with O < W the chunker emits ceil((N-O)/(W-O)) chunks when
N > W, exactly one chunk when 0 < N <= W, and zero chunks when N = 0 (the
original claim's "exactly 1 chunk otherwise" fails at N = 0); the i-th chunk
is the token window starting at offset i*(W-O) of width at most W, the
windows cover [0, N) with no gaps, each consecutive pair of windows overlaps
by exactly O tokens, and chunk_index is assigned 0-based and contiguous in
generation order. -/
theorem C4_window_arithmetic (dec : List Nat → String) (md5 : String → String)
    (tok : String → List Nat) (W O : Nat) (content filename now : String)
    (l : List Chunk) (hO : O < W)
    (hl : _chunk_content dec md5 tok W O content filename now = some l) :
    (l.length = if (tok content).length = 0 then 0
      else if (tok content).length ≤ W then 1
      else ((tok content).length - O + (W - O) - 1) / (W - O))
  ∧ (∀ i (h : i < l.length), (l.get ⟨i, h⟩).metadata.chunk_index = i)
  ∧ (∀ i (h : i < l.length), (l.get ⟨i, h⟩).chunk_tokens =
      ((tok content).drop (i * (W - O))).take W)
  ∧ (∀ t, t < (tok content).length → ∃ i, ∃ h : i < l.length,
      i * (W - O) ≤ t ∧ t < i * (W - O) + W)
  ∧ (∀ i, i + 1 < l.length →
      min (i * (W - O) + W) (tok content).length - (i + 1) * (W - O) = O) := by
  rw [_chunk_content_eq dec md5 tok W O content filename now hO] at hl
  have hl2 := Option.some.inj hl
  subst hl2
  have hs : 0 < W - O := by omega
  refine ⟨?_, ?_, ?_, ?_, ?_⟩
  · simp [cntFrom]
  · intro i h
    simp only [List.get_eq_getElem, List.getElem_map, List.getElem_range]
    rfl
  · intro i h
    simp only [List.get_eq_getElem, List.getElem_map, List.getElem_range]
    show ((tok content).drop (i * (W - O))).take
        (min (i * (W - O) + W) (tok content).length - i * (W - O)) = _
    rw [List.take_eq_take]
    simp only [List.length_drop]
    omega
  · intro t ht
    have hN : 0 < (tok content).length := by omega
    have hk : 0 < cntFrom W O (tok content).length := cntFrom_pos hO hN
    by_cases hcase : t / (W - O) < cntFrom W O (tok content).length
    · refine ⟨t / (W - O), by simpa using hcase, Nat.div_mul_le_self t (W - O), ?_⟩
      have h4 := @Nat.lt_div_mul_add t (W - O) hs
      have h5 : W - O ≤ W := Nat.sub_le W O
      linarith
    · refine ⟨cntFrom W O (tok content).length - 1, by simpa using hk, ?_, ?_⟩
      · have h1 : (cntFrom W O (tok content).length - 1) * (W - O) ≤
            t / (W - O) * (W - O) :=
          Nat.mul_le_mul_right (W - O) (by omega)
        exact le_trans h1 (Nat.div_mul_le_self t (W - O))
      · exact lt_of_lt_of_le ht (cntFrom_last hO _ hN)
  · intro i hi
    have hi2 : i + 1 < cntFrom W O (tok content).length := by simpa using hi
    have hfull := cntFrom_full hO (tok content).length i hi2
    rw [min_eq_left (le_of_lt hfull), Nat.succ_mul]
    generalize i * (W - O) = a
    omega

/-- C4 counterexample: with W = 2, O = 0 and the empty document (token count
N = 0) the chunker yields 0 chunks where the claim's "exactly 1 chunk
otherwise" branch demands 1. -/
theorem C4_counterexample :
    ¬ Option.map List.length (_chunk_content dec0 md50 tok0 2 0 "" "f" "t") = some 1 := by
  decide

/-- C3: every chunk produced by _chunk_content satisfies
id = md5(source ++ "_" ++ chunk_index), which is exactly the Retriever's
_generate_chunk_id applied to the chunk's own (source, chunk_index) address,
and upserting such chunks via add_documents preserves this identity
invariant for every row of the store. -/
theorem C3_stable_identity (dec : List Nat → String) (md5 : String → String)
    (tok : String → List Nat) (W O : Nat) (content filename now : String)
    (l : List Chunk)
    (hl : _chunk_content dec md5 tok W O content filename now = some l) :
    (∀ c ∈ l, c.id = _generate_chunk_id md5 c.metadata.source (c.metadata.chunk_index : Int)
      ∧ c.metadata.source = filename)
  ∧ ∀ (embedApi : String → Option (List Rat)) (st : Store),
      storeWF md5 st → storeWF md5 (add_documents embedApi st l) := by
  have hids := chunkLoop_ids dec md5 W O (tok content) filename now _ 0 0 l hl
  have hwfc : ∀ c ∈ l,
      c.id = _generate_chunk_id md5 c.metadata.source (c.metadata.chunk_index : Int) := by
    intro c hc
    obtain ⟨h1, h2⟩ := hids c hc
    rw [h1, h2]
    rfl
  exact ⟨fun c hc => ⟨hwfc c hc, (hids c hc).2⟩,
    fun embedApi st hst => add_documents_wf md5 embedApi st l hst hwfc⟩

/-- C3 witness: on the concrete two-chunk run of the chunker over "ab" with
W = 1, O = 0 the produced id equals the retriever's recomputed id for the
same (source, chunk_index) address. -/
theorem C3_witness :
    (⟨"f_0", "", [97], ⟨"f", 0, "t", 1⟩⟩ : Chunk).id =
      _generate_chunk_id md50 "f" ((0 : Nat) : Int) := by
  have h := C3_stable_identity dec0 md50 tok0 1 0 "ab" "f" "t"
    [⟨"f_0", "", [97], ⟨"f", 0, "t", 1⟩⟩, ⟨"f_1", "", [98], ⟨"f", 1, "t", 1⟩⟩] rfl
  exact (h.1 ⟨"f_0", "", [97], ⟨"f", 0, "t", 1⟩⟩ (by simp)).1

/-- Embedding stub for the rollback scenario: succeeds on the text "a",
raises on anything else. -/
def embedApi1 (t : String) : Option (List Rat) :=
  if t == "a" then some [] else none

/-- First chunk of the rollback scenario; its embedding call succeeds. -/
def chunkA : Chunk := ⟨"f_0", "a", [97], ⟨"f", 0, "t", 1⟩⟩

/-- Second chunk of the rollback scenario; its embedding call fails. -/
def chunkB : Chunk := ⟨"f_1", "b", [98], ⟨"f", 1, "t", 1⟩⟩

/-- C1 counterexample: writing [chunkA, chunkB] into the empty store, where
chunkA's embedding succeeds and chunkB's fails, leaves the store empty - the
exception escapes the psycopg2 `with` block, which rolls the single
transaction back, so chunkA's already-executed insert does NOT remain,
contradicting the claimed per-chunk durability. -/
theorem C1_counterexample :
    get_embedding embedApi1 chunkA.text = some []
  ∧ get_embedding embedApi1 chunkB.text = none
  ∧ add_documents embedApi1 [] [chunkA, chunkB] = []
  ∧ ¬ ∃ row ∈ add_documents embedApi1 [] [chunkA, chunkB], row.id = chunkA.id := by
  refine ⟨rfl, rfl, rfl, ?_⟩
  have h : add_documents embedApi1 [] [chunkA, chunkB] = [] := rfl
  rw [h]
  simp

theorem add_documents_loop_fails (embedApi : String → Option (List Rat))
    (chunks : List Chunk) :
    ∀ st : Store, (∃ c ∈ chunks, get_embedding embedApi c.text = none) →
      add_documents_loop embedApi st chunks = none := by
  induction chunks with
  | nil =>
    rintro st ⟨c, hc, _⟩
    cases hc
  | cons c rest ih =>
    rintro st ⟨x, hx, hxe⟩
    rcases List.mem_cons.mp hx with hx | hx
    · subst hx
      simp only [add_documents_loop]
      rw [hxe]
    · simp only [add_documents_loop]
      cases he : get_embedding embedApi c.text with
      | none => rfl
      | some e => exact ih _ ⟨x, hx, hxe⟩

/-- C1 (amended): a failure while embedding any chunk of an add_documents
call aborts the surrounding transaction, which rolls back: the store after
the call equals the store before it, so the rows already written for chunks
0..i-1 of the same call do NOT remain (batch rollback, not per-chunk
durability). -/
theorem C1_batch_rollback (embedApi : String → Option (List Rat)) (st : Store)
    (chunks : List Chunk)
    (hfail : ∃ c ∈ chunks, get_embedding embedApi c.text = none) :
    add_documents embedApi st chunks = st := by
  unfold add_documents
  rw [add_documents_loop_fails embedApi chunks st hfail]

/-- C1 witness: the two-chunk batch whose second embedding fails leaves the
empty store empty. -/
theorem C1_witness :
    (∃ c ∈ [chunkA, chunkB], get_embedding embedApi1 c.text = none)
  ∧ add_documents embedApi1 [] [chunkA, chunkB] = [] := by
  have hfail : ∃ c ∈ [chunkA, chunkB], get_embedding embedApi1 c.text = none :=
    ⟨chunkB, by simp, rfl⟩
  exact ⟨hfail, C1_batch_rollback embedApi1 [] [chunkA, chunkB] hfail⟩

/-- C6 counterexample: an unsupported extension returns Except.ok (some []),
exactly what a successfully processed empty document returns - the caller
cannot distinguish the two, and no UnsupportedFormatError escapes
process_file (the internal ValueError is caught and swallowed). -/
theorem C6_counterexample :
    process_file dec0 md50 tok0 800 100 true ".xyz" "hello" "h.xyz" "t" =
      Except.ok (some [])
  ∧ process_file dec0 md50 tok0 800 100 true ".txt" "" "e.txt" "t" =
      Except.ok (some []) :=
  ⟨rfl, rfl⟩

theorem processBatch_eq_map (dec : List Nat → String) (md5 : String → String)
    (tok : String → List Nat) (W O : Nat)
    (files : List (Bool × String × String × String)) (now : String) :
    processBatch dec md5 tok W O files now =
      files.map fun f => process_file dec md5 tok W O f.1 f.2.1 f.2.2.1 f.2.2.2 now := by
  induction files with
  | nil => rfl
  | cons f rest ih => simp [processBatch, ih]

/-- C6 (amended): an unsupported extension makes the internal dispatch raise
ValueError, which process_file catches, returning the empty chunk list -
indistinguishable from an empty document - rather than letting an
UnsupportedFormatError reach the caller; each file of a batch is processed
independently, so a failing file leaves its siblings unaffected. -/
theorem C6_unsupported_swallowed (dec : List Nat → String) (md5 : String → String)
    (tok : String → List Nat) (W O : Nat) (ext content filename now : String)
    (hext : ext ∉ [".pdf", ".docx", ".txt", ".md", ".html"]) :
    extractByExt ext content = Except.error ("Unsupported file type: " ++ ext)
  ∧ process_file dec md5 tok W O true ext content filename now = Except.ok (some [])
  ∧ ∀ (files : List (Bool × String × String × String)) (now2 : String),
      processBatch dec md5 tok W O files now2 =
        files.map fun f => process_file dec md5 tok W O f.1 f.2.1 f.2.2.1 f.2.2.2 now2 := by
  have h1 : ¬ ext = ".pdf" := fun h => hext (by simp [h])
  have h2 : ¬ ext = ".docx" := fun h => hext (by simp [h])
  have h3 : ¬ (ext = ".txt" ∨ ext = ".md") := by
    rintro (h | h) <;> exact hext (by simp [h])
  have h5 : ¬ ext = ".html" := fun h => hext (by simp [h])
  have hex : extractByExt ext content =
      Except.error ("Unsupported file type: " ++ ext) := by
    unfold extractByExt
    rw [if_neg h1, if_neg h2, if_neg h3, if_neg h5]
  refine ⟨hex, ?_, fun files now2 => processBatch_eq_map dec md5 tok W O files now2⟩
  unfold process_file
  rw [if_neg (by decide), hex]

/-- C6 witness: the unsupported extension ".xyz" is swallowed into an empty
chunk list. -/
theorem C6_witness :
    (".xyz" ∉ [".pdf", ".docx", ".txt", ".md", ".html"])
  ∧ process_file dec0 md50 tok0 800 100 true ".xyz" "x" "f.xyz" "t" =
      Except.ok (some []) :=
  ⟨by decide,
    (C6_unsupported_swallowed dec0 md50 tok0 800 100 ".xyz" "x" "f.xyz" "t" (by decide)).2.1⟩

/-- C7: get_chunks_by_ids returns exactly the stored rows whose id is in the
input list, each with the embedding column omitted from the payload; ids with
no matching row are silently absent, and the empty input list yields [] for
every store state (the early return fires before any store access). -/
theorem C7_get_by_ids (chunk_ids : List String) (st : Store) :
    (∀ p, p ∈ get_chunks_by_ids chunk_ids st ↔
      ∃ row ∈ st, row.id ∈ chunk_ids ∧ p = ⟨row.id, row.content, row.metadata⟩)
  ∧ (∀ st2 : Store, get_chunks_by_ids [] st2 = []) := by
  constructor
  · intro p
    unfold get_chunks_by_ids
    by_cases he : chunk_ids.isEmpty
    · rw [if_pos he]
      have hnil : chunk_ids = [] := List.isEmpty_iff.mp he
      subst hnil
      simp
    · rw [if_neg he]
      simp only [List.mem_map, List.mem_filter]
      constructor
      · rintro ⟨row, ⟨hrow, hid⟩, rfl⟩
        exact ⟨row, hrow, by simpa using hid, rfl⟩
      · rintro ⟨row, hrow, hid, rfl⟩
        exact ⟨row, ⟨hrow, by simpa using hid⟩, rfl⟩
  · intro st2
    rfl

/-- C8: delete_document removes exactly the rows whose metadata.source equals
the given name and keeps every other row, is a no-op when no row matches, and
afterwards the distinct-source listing excludes the name. -/
theorem C8_delete_by_source (st : Store) (filename : String) :
    (∀ r, r ∈ delete_document filename st ↔ r ∈ st ∧ r.metadata.source ≠ filename)
  ∧ ((∀ r ∈ st, r.metadata.source ≠ filename) → delete_document filename st = st)
  ∧ filename ∉ get_all_documents (delete_document filename st) := by
  refine ⟨?_, ?_, ?_⟩
  · intro r
    unfold delete_document
    rw [List.mem_filter]
    simp
  · intro hall
    unfold delete_document
    rw [List.filter_eq_self]
    intro r hr
    simpa using hall r hr
  · intro h
    unfold get_all_documents delete_document at h
    rw [List.mem_dedup] at h
    rcases List.mem_map.mp h with ⟨r, hr, hsrc⟩
    rcases List.mem_filter.mp hr with ⟨_, hne⟩
    simp at hne
    exact hne hsrc

/-- C9: query returns at most `limit` chunks, ordered by descending
similarity score, each score being 1 minus the distance between the stored
embedding and the query embedding; the empty store yields the empty list
rather than an error. -/
theorem C9_query (embedApi : String → Option (List Rat))
    (dist : List Rat → List Rat → Rat) (query_text : String) (limit : Nat)
    (st : Store) (qe : List Rat)
    (hq : get_embedding embedApi query_text = some qe) :
    ∃ res, query embedApi dist query_text limit st = some res ∧
      res.length ≤ limit ∧
      List.Sorted (fun a b : Scored => b.score ≤ a.score) res ∧
      (∀ r ∈ res, ∃ row ∈ st,
        r = ⟨row.id, row.content, row.metadata, 1 - dist row.embedding qe⟩) ∧
      (st = [] → res = []) := by
  refine ⟨((List.insertionSort (fun a b : Row => dist a.embedding qe ≤ dist b.embedding qe)
      st).take limit).map
      (fun row => ⟨row.id, row.content, row.metadata, 1 - dist row.embedding qe⟩),
    ?_, ?_, ?_, ?_, ?_⟩
  · unfold query
    rw [hq]
    rfl
  · simp only [List.length_map, List.length_take]
    exact min_le_left _ _
  · haveI : IsTrans Row (fun a b : Row => dist a.embedding qe ≤ dist b.embedding qe) :=
      ⟨fun _ _ _ hab hbc => le_trans hab hbc⟩
    haveI : IsTotal Row (fun a b : Row => dist a.embedding qe ≤ dist b.embedding qe) :=
      ⟨fun _ _ => le_total _ _⟩
    have hsorted := List.sorted_insertionSort
      (fun a b : Row => dist a.embedding qe ≤ dist b.embedding qe) st
    have htake := List.Pairwise.sublist (List.take_sublist limit _) hsorted
    exact List.Pairwise.map _ (fun a b hab => sub_le_sub_left hab 1) htake
  · intro r hrm
    rcases List.mem_map.mp hrm with ⟨row, hrow, rfl⟩
    have hmem : row ∈ List.insertionSort
        (fun a b : Row => dist a.embedding qe ≤ dist b.embedding qe) st :=
      (List.take_sublist limit _).mem hrow
    rw [List.mem_insertionSort] at hmem
    exact ⟨row, hmem, rfl⟩
  · intro h
    subst h
    simp

/-- Embedding stub that always succeeds with the empty vector. -/
def embedApi0 (_t : String) : Option (List Rat) :=
  some []

/-- Distance stub: constant zero. -/
def dist0 (_a _b : List Rat) : Rat :=
  0

/-- C9 witness: a query against the empty store returns the empty list. -/
theorem C9_witness : query embedApi0 dist0 "q" 5 [] = some [] := by
  obtain ⟨res, h1, _, _, _, h5⟩ := C9_query embedApi0 dist0 "q" 5 [] [] rfl
  rw [h1, h5 rfl]

theorem mem_get_chunks_by_ids (chunk_ids : List String) (st : Store) (x : Payload)
    (h : x ∈ get_chunks_by_ids chunk_ids st) :
    ∃ row ∈ st, x = ⟨row.id, row.content, row.metadata⟩ := by
  unfold get_chunks_by_ids at h
  by_cases he : chunk_ids.isEmpty
  · rw [if_pos he] at h
    cases h
  · rw [if_neg he] at h
    rcases List.mem_map.mp h with ⟨row, hrow, rfl⟩
    exact ⟨row, (List.mem_filter.mp hrow).1, rfl⟩

theorem dictGet_some (ctx : List Payload) (key : String) (x : Payload)
    (h : dictGet ctx key = some x) : x ∈ ctx ∧ x.id = key := by
  unfold dictGet at h
  refine ⟨List.mem_reverse.mp (List.mem_of_find?_eq_some h), ?_⟩
  have hfind := List.find?_some h
  simpa using hfind

theorem mem_range'_bounds {i A : Nat} (h : i ∈ List.range' 1 A) : 1 ≤ i ∧ i ≤ A := by
  rcases List.mem_range'.mp h with ⟨j, hj, rfl⟩
  omega

theorem probePairs_mem (prim : List Scored) (A : Nat) (p : Scored) (hp : p ∈ prim)
    (i : Nat) (hi1 : 1 ≤ i) (hiA : i ≤ A) :
    (p.metadata.source, (p.metadata.chunk_index : Int) - i) ∈ probePairs prim A ∧
    (p.metadata.source, (p.metadata.chunk_index : Int) + i) ∈ probePairs prim A := by
  have hir : i ∈ List.range' 1 A := List.mem_range'.mpr ⟨i - 1, by omega, by omega⟩
  unfold probePairs
  constructor
  · rw [List.mem_flatMap]
    refine ⟨p, hp, ?_⟩
    rw [List.mem_flatMap]
    exact ⟨i, hir, by simp⟩
  · rw [List.mem_flatMap]
    refine ⟨p, hp, ?_⟩
    rw [List.mem_flatMap]
    exact ⟨i, hir, by simp⟩

theorem mem_buildContext_before (md5 : String → String) (ctx : List Payload)
    (s : String) (c A : Nat) (x : Payload)
    (h : x ∈ (buildContext md5 ctx s c A).before) :
    ∃ i, 1 ≤ i ∧ i ≤ A ∧
      dictGet ctx (_generate_chunk_id md5 s ((c : Int) - i)) = some x := by
  unfold buildContext at h
  simp only at h
  unfold sortByIndex at h
  rw [List.mem_insertionSort] at h
  rcases List.mem_filterMap.mp h with ⟨i, hi, hx⟩
  obtain ⟨h1, h2⟩ := mem_range'_bounds hi
  exact ⟨i, h1, h2, hx⟩

theorem mem_buildContext_after (md5 : String → String) (ctx : List Payload)
    (s : String) (c A : Nat) (x : Payload)
    (h : x ∈ (buildContext md5 ctx s c A).after) :
    ∃ i, 1 ≤ i ∧ i ≤ A ∧
      dictGet ctx (_generate_chunk_id md5 s ((c : Int) + i)) = some x := by
  unfold buildContext at h
  simp only at h
  unfold sortByIndex at h
  rw [List.mem_insertionSort] at h
  rcases List.mem_filterMap.mp h with ⟨i, hi, hx⟩
  obtain ⟨h1, h2⟩ := mem_range'_bounds hi
  exact ⟨i, h1, h2, hx⟩

theorem sortByIndex_sorted (l : List Payload) :
    List.Sorted (fun a b : Payload => a.metadata.chunk_index ≤ b.metadata.chunk_index)
      (sortByIndex l) := by
  haveI : IsTrans Payload
      (fun a b : Payload => a.metadata.chunk_index ≤ b.metadata.chunk_index) :=
    ⟨fun _ _ _ hab hbc => le_trans hab hbc⟩
  haveI : IsTotal Payload
      (fun a b : Payload => a.metadata.chunk_index ≤ b.metadata.chunk_index) :=
    ⟨fun _ _ => le_total _ _⟩
  exact List.sorted_insertionSort _ l

/-- C5: in every retrieve call with adjacency window A >= 1, provided the
probed neighbour ids collide with no unrelated row of the store, every
returned (primary, context) pair with primary chunk_index c has:
before containing only same-source chunks with chunk_index in [c-A, c-1],
sorted ascending; after containing only same-source chunks with chunk_index
in [c+1, c+A], sorted ascending; an empty before side when c = 0; every id
handed to the store lookup addressing a non-negative chunk_index; and a
missing neighbour merely absent (the pipeline is total, nothing is raised). -/
theorem C5_adjacency (embedApi : String → Option (List Rat))
    (dist : List Rat → List Rat → Rat) (md5 : String → String)
    (query_text : String) (top_k A : Nat) (st : Store) (prim : List Scored)
    (hA : 1 ≤ A)
    (hq : query embedApi dist query_text top_k st = some prim)
    (hcoll : ∀ row ∈ st, ∀ pr ∈ probePairs prim A,
      row.id = _generate_chunk_id md5 pr.1 pr.2 →
      row.metadata.source = pr.1 ∧ (row.metadata.chunk_index : Int) = pr.2) :
    retrieve embedApi dist md5 query_text top_k A st = some (expand md5 prim st A)
  ∧ (∀ entry ∈ expand md5 prim st A,
      (∀ x ∈ entry.context.before,
        x.metadata.source = entry.primary.metadata.source ∧
        (entry.primary.metadata.chunk_index : Int) - A ≤ (x.metadata.chunk_index : Int) ∧
        x.metadata.chunk_index < entry.primary.metadata.chunk_index) ∧
      List.Sorted (fun a b : Payload => a.metadata.chunk_index ≤ b.metadata.chunk_index)
        entry.context.before ∧
      (∀ x ∈ entry.context.after,
        x.metadata.source = entry.primary.metadata.source ∧
        entry.primary.metadata.chunk_index < x.metadata.chunk_index ∧
        (x.metadata.chunk_index : Int) ≤ (entry.primary.metadata.chunk_index : Int) + A) ∧
      List.Sorted (fun a b : Payload => a.metadata.chunk_index ≤ b.metadata.chunk_index)
        entry.context.after ∧
      (entry.primary.metadata.chunk_index = 0 → entry.context.before = []))
  ∧ (∀ y ∈ ids_to_fetch md5 prim A, ∃ s2 : String, ∃ j : Nat,
      y = _generate_chunk_id md5 s2 (j : Int)) := by
  refine ⟨?_, ?_, ?_⟩
  · unfold retrieve
    rw [hq]
    rfl
  · intro entry hentry
    unfold expand at hentry
    rcases List.mem_map.mp hentry with ⟨p, hp, rfl⟩
    simp only
    refine ⟨?_, sortByIndex_sorted _, ?_, sortByIndex_sorted _, ?_⟩
    · intro x hx
      rcases mem_buildContext_before md5 _ _ _ _ x hx with ⟨i, hi1, hiA, hdg⟩
      obtain ⟨hxc, hxid⟩ := dictGet_some _ _ _ hdg
      rcases mem_get_chunks_by_ids _ _ _ hxc with ⟨row, hrow, rfl⟩
      have hpair := (probePairs_mem prim A p hp i hi1 hiA).1
      have hc := hcoll row hrow _ hpair hxid
      refine ⟨hc.1, ?_, ?_⟩
      · have h2 := hc.2
        dsimp only
        omega
      · have h2 := hc.2
        dsimp only
        omega
    · intro x hx
      rcases mem_buildContext_after md5 _ _ _ _ x hx with ⟨i, hi1, hiA, hdg⟩
      obtain ⟨hxc, hxid⟩ := dictGet_some _ _ _ hdg
      rcases mem_get_chunks_by_ids _ _ _ hxc with ⟨row, hrow, rfl⟩
      have hpair := (probePairs_mem prim A p hp i hi1 hiA).2
      have hc := hcoll row hrow _ hpair hxid
      refine ⟨hc.1, ?_, ?_⟩
      · have h2 := hc.2
        dsimp only
        omega
      · have h2 := hc.2
        dsimp only
        omega
    · intro hc0
      rw [List.eq_nil_iff_forall_not_mem]
      intro x hx
      rcases mem_buildContext_before md5 _ _ _ _ x hx with ⟨i, hi1, hiA, hdg⟩
      obtain ⟨hxc, hxid⟩ := dictGet_some _ _ _ hdg
      rcases mem_get_chunks_by_ids _ _ _ hxc with ⟨row, hrow, rfl⟩
      have hpair := (probePairs_mem prim A p hp i hi1 hiA).1
      have hc := hcoll row hrow _ hpair hxid
      have h2 := hc.2
      rw [hc0] at h2
      omega
  · intro y hy
    unfold ids_to_fetch at hy
    rcases List.mem_filter.mp hy with ⟨hy2, _⟩
    rw [List.mem_dedup] at hy2
    rcases List.mem_flatMap.mp hy2 with ⟨p, hp, hyp⟩
    unfold adjacentIdsOf at hyp
    rcases List.mem_flatMap.mp hyp with ⟨i, hi, hyi⟩
    rcases List.mem_append.mp hyi with hcase | hcase
    · by_cases hpos : (0 : Int) ≤ (p.metadata.chunk_index : Int) - i
      · rw [if_pos hpos] at hcase
        rcases List.mem_singleton.mp hcase with rfl
        refine ⟨p.metadata.source, ((p.metadata.chunk_index : Int) - i).toNat, ?_⟩
        rw [Int.toNat_of_nonneg hpos]
      · rw [if_neg hpos] at hcase
        cases hcase
    · rcases List.mem_singleton.mp hcase with rfl
      refine ⟨p.metadata.source, p.metadata.chunk_index + i, ?_⟩
      have hcast : ((p.metadata.chunk_index + i : Nat) : Int) =
          (p.metadata.chunk_index : Int) + (i : Int) := by push_cast; ring
      rw [hcast]

/-- Concrete store for the retrieval witness: three consecutive chunks of
source "d" at indices 0, 1 and 2 (row order immaterial). -/
def st5 : Store :=
  [⟨"d_1", "c1", ⟨"d", 1, "t", 1⟩, []⟩,
   ⟨"d_0", "c0", ⟨"d", 0, "t", 1⟩, []⟩,
   ⟨"d_2", "c2", ⟨"d", 2, "t", 1⟩, []⟩]

/-- The primary list the query returns on st5 with limit 1. -/
def prim5 : List Scored :=
  [⟨"d_1", "c1", ⟨"d", 1, "t", 1⟩, 1 - dist0 [] []⟩]

/-- C5 witness: on the concrete three-chunk store the retrieve call with
adjacency window 1 succeeds, returning the primary at chunk_index 1 with its
recomputed context. -/
theorem C5_witness :
    retrieve embedApi0 dist0 md50 "q" 1 1 st5 = some (expand md50 prim5 st5 1) :=
  (C5_adjacency embedApi0 dist0 md50 "q" 1 1 st5 prim5 (by decide) rfl
    (by decide)).1

/-- C4 witness: W = 2, O = 1 on the three-token document "abc" yields
ceil((3-1)/(2-1)) = 2 chunks with the expected windows. -/
theorem C4_witness :
    [(⟨"f_0", "", [97, 98], ⟨"f", 0, "t", 2⟩⟩ : Chunk),
     ⟨"f_1", "", [98, 99], ⟨"f", 1, "t", 2⟩⟩].length =
      if (tok0 "abc").length = 0 then 0
      else if (tok0 "abc").length ≤ 2 then 1
      else ((tok0 "abc").length - 1 + (2 - 1) - 1) / (2 - 1) :=
  (C4_window_arithmetic dec0 md50 tok0 2 1 "abc" "f" "t"
    [⟨"f_0", "", [97, 98], ⟨"f", 0, "t", 2⟩⟩, ⟨"f_1", "", [98, 99], ⟨"f", 1, "t", 2⟩⟩]
    (by decide) rfl).1
